import Mathlib

/-!
Verification of the n88 emulator core (register views, masked flag loaders,
ALU, addressing resolution, memory, and the run loop) against its
natural-language specification.  Machine integers are modelled as Nat with
explicit wrapping (% 256 / % 65536) where the Rust code relies on u8/u16
semantics; bitwise complement on a w-bit word is xor with the all-ones word
of that width (BitwiseOps::ALL_ON).
-/

namespace N88

/-- Bitwise NOT on an 8-bit word (Rust u8 Not, with ALL_ON = 255). -/
def notU8 (b : Nat) : Nat := 255 ^^^ b

/-- Bitwise NOT on a 16-bit word (Rust u16 Not, with ALL_ON = 65535). -/
def notU16 (b : Nat) : Nat := 65535 ^^^ b

/-- Register16: a 16-bit register cell (register.rs, struct Register16 whose
load/read store and return the raw bits). -/
structure Register16 where
  bits : Nat
deriving DecidableEq

/-- A register loader over a state σ: the shallow embedding of the Rust
RegisterLoader/RegisterReader pair (a loader mutably borrows some state and
exposes read and load at one width). -/
structure RegLoader (σ : Type) where
  read : σ → Nat
  load : σ → Nat → σ

/-- Register16Loader (register.rs): full-width view of a Register16,
delegating read and load to the cell. -/
def register16Loader : RegLoader Register16 where
  read r := r.bits
  load _ bits := ⟨bits⟩

/-- Register16Reader::read (register.rs): returns the raw cell bits. -/
def register16Reader (r : Register16) : Nat := r.bits

/-- Register16In8Reader::read (register.rs lines 140-150): low half is
(t & 0x00ff) as u8, high half is (t >> 8) as u8; the as-u8 cast is the
trailing % 256. -/
def register16In8Reader (low : Bool) (r : Register16) : Nat :=
  if low then (r.bits &&& 0x00ff) % 256 else (r.bits >>> 8) % 256

/-- Register16In8Loader (register.rs lines 99-108): read delegates to
Register16In8Reader; load merges the written byte into the selected half,
keeping the other half: low writes read() & !0x00ff | bits, high writes
read() & !0xff00 | (bits << 8). -/
def register16In8Loader (low : Bool) : RegLoader Register16 where
  read r := register16In8Reader low r
  load r bits :=
    let t :=
      if low then r.bits &&& notU16 0x00ff ||| bits
      else r.bits &&& notU16 0xff00 ||| (bits <<< 8)
    ⟨t⟩

/-- MaskedRegisterLoader (register.rs lines 39-58): wraps an inner loader with
a mask; read returns inner.read & mask, load writes
bits & mask | inner.read & !mask through the inner loader.  allOn is the
all-ones word of the B width (so allOn ^^^ mask is the Not of the mask). -/
def maskedRegisterLoader {σ : Type} (allOn mask : Nat) (inner : RegLoader σ) :
    RegLoader σ where
  read s := inner.read s &&& mask
  load s bits := inner.load s (bits &&& mask ||| inner.read s &&& (allOn ^^^ mask))

/-- Memory8Bit64KB (memory.rs): a 65536-byte backing array; read and store
index it with the u16 address cast to usize. -/
structure Memory8Bit64KB where
  bytes : Array Nat

/-- Rust array indexing is fallible in general: the indexing operation of
Memory8Bit64KB::read with its out-of-bounds branch made explicit as none. -/
def Memory8Bit64KB.read? (m : Memory8Bit64KB) (index : Nat) : Option Nat :=
  m.bytes[index]?

/-- Memory8Bit64KB::read, total form: the getD default stands for the
out-of-bounds branch, which is unreachable for a well-formed memory (see the
totality theorem for claim C9). -/
def Memory8Bit64KB.read (m : Memory8Bit64KB) (index : Nat) : Nat :=
  (m.bytes[index]?).getD 0

/-- Memory8Bit64KB::store with its out-of-bounds branch made explicit. -/
def Memory8Bit64KB.store? (m : Memory8Bit64KB) (index data : Nat) :
    Option Memory8Bit64KB :=
  if h : index < m.bytes.size then some ⟨m.bytes.set ⟨index, h⟩ data⟩ else none

/-- Memory8Bit64KB::store, total form (no-op on the unreachable branch). -/
def Memory8Bit64KB.store (m : Memory8Bit64KB) (index data : Nat) : Memory8Bit64KB :=
  ⟨m.bytes.setD index data⟩

/-- AdderFlag (cpu.rs / alu.rs test fixture): Overflow is the carry/borrow-out
bit, Signed the high-bit-of-result bit. -/
inductive AdderFlag where
  | Overflow
  | Signed
deriving DecidableEq

/-- From AdderFlag for u8: Overflow is bit value 1, Signed is bit value 2. -/
def AdderFlag.into : AdderFlag → Nat
  | .Overflow => 1
  | .Signed => 2

/-- FlagSetBits over u8 (alu.rs typical module): a flag register word. -/
structure FlagSetBits where
  bits : Nat
deriving DecidableEq

/-- FlagSet::change instantiated at F = AdderFlag, B = u8 (alu.rs lines
32-38): set ors in the flag bit, reset ands with its u8 complement. -/
def FlagSetBits.change (fs : FlagSetBits) (flag : AdderFlag) (set : Bool) :
    FlagSetBits :=
  if set then ⟨fs.bits ||| flag.into⟩ else ⟨fs.bits &&& notU8 flag.into⟩

/-- FlagSet::from_slice (alu.rs lines 52-57): fold of or over the flags,
starting from ALL_OFF = 0. -/
def FlagSetBits.from_slice (flags : List AdderFlag) : FlagSetBits :=
  ⟨flags.foldl (fun b f => b ||| f.into) 0⟩

/-- FlagSet::all_on for FlagSetBits of u8: Self(u8::MAX). -/
def flagSetBitsAllOn : FlagSetBits := ⟨255⟩

/-- u8::overflowing_add on Nat models of bytes. -/
def u8OverflowingAdd (a b : Nat) : Nat × Bool :=
  ((a + b) % 256, decide (256 ≤ a + b))

/-- u8::overflowing_sub on Nat models of bytes (inputs below 256). -/
def u8OverflowingSub (a b : Nat) : Nat × Bool :=
  ((a + 256 - b) % 256, decide (a < b))

/-- Adder::op (alu.rs lines 115-131 and cpu.rs lines 228-245): control true
means subtract; the result is the wrapping sum/difference, Overflow is the
overflow flag of the wrapping operation and Signed is set when the result is
at least 0x80. -/
def Adder.op (sub : Bool) (a b : Nat) : Nat × FlagSetBits :=
  let r := if sub then u8OverflowingSub a b else u8OverflowingAdd a b
  let flag :=
    ((FlagSetBits.mk 0).change .Overflow r.2).change .Signed (decide (0x80 ≤ r.1))
  (r.1, flag)

/-- CPU8 (cpu.rs test fixture): the aggregate of five 16-bit register pairs
and the 64KB memory. -/
structure CPU8 where
  af : Register16
  bc : Register16
  hl : Register16
  sp : Register16
  pc : Register16
  memory : Memory8Bit64KB

/-- Register16Code for CPU8 (cpu.rs): the 16-bit pair names. -/
inductive Register16Code where
  | AF
  | BC
  | HL
deriving DecidableEq

/-- Register8Code for CPU8 (cpu.rs): the 8-bit half names. -/
inductive Register8Code where
  | A
  | B
  | C
  | H
  | L
deriving DecidableEq

/-- Register8Code::is_low (cpu.rs lines 409-417). -/
def Register8Code.is_low : Register8Code → Bool
  | .A | .H | .B => false
  | .L | .C => true

/-- RegisterSet reader_of for 8-bit codes on CPU8 (cpu.rs lines 399-406):
pick the owning pair and read through the half view. -/
def CPU8.reader_of8 (cpu : CPU8) (code : Register8Code) : Nat :=
  let register :=
    match code with
    | .A => cpu.af
    | .H | .L => cpu.hl
    | .B | .C => cpu.bc
  register16In8Reader code.is_low register

/-- RegisterSet reader_of for 16-bit codes on CPU8 (cpu.rs lines 375-381). -/
def CPU8.reader_of16 (cpu : CPU8) (code : Register16Code) : Nat :=
  register16Reader
    (match code with
     | .AF => cpu.af
     | .HL => cpu.hl
     | .BC => cpu.bc)

/-- The loader Register16In8Loader::new(&mut self.af, true) used by CPU8's
flag register (cpu.rs lines 180-188), lifted to a loader over the whole CPU
state (it touches only the af field). -/
def cpu8AfLowLoader : RegLoader CPU8 where
  read cpu := (register16In8Loader true).read cpu.af
  load cpu bits := { cpu with af := (register16In8Loader true).load cpu.af bits }

/-- CPUFlagRegister::flag_loader_masked for CPU8 (cpu.rs lines 180-188):
MaskedRegisterLoader over the low byte of af, with the mask word of the given
flag set (FlagRegisterSize = u8, so allOn = 255). -/
def CPU8.flag_loader_masked (flag_mask : FlagSetBits) : RegLoader CPU8 :=
  maskedRegisterLoader 255 flag_mask.bits cpu8AfLowLoader

/-- CPUFlagRegister::flag_loader default method (cpu.rs lines 62-64):
flag_loader_masked(FlagSet::all_on()). -/
def CPU8.flag_loader : RegLoader CPU8 :=
  CPU8.flag_loader_masked flagSetBitsAllOn

/-- CPUFlagRegister::flag_loader_mask_slice default method (cpu.rs lines
69-74): the body calls flag_loader_masked(FlagSet::all_on()) and does not use
the flag_masks argument. -/
def CPU8.flag_loader_mask_slice (flag_masks : List FlagSetBits) : RegLoader CPU8 :=
  CPU8.flag_loader_masked flagSetBitsAllOn

/-- Addressing8 (cpu.rs lines 273-279): the four operand addressing modes. -/
inductive Addressing8 where
  | Immediate (v : Nat)
  | ImmediateRegister (reg : Register8Code)
  | DirectMemory (index : Nat)
  | Indirect (reg : Register16Code)

/-- Termination measure for Addressing8::value: only Indirect recurses, into
DirectMemory. -/
def Addressing8.rank : Addressing8 → Nat
  | .Indirect _ => 1
  | _ => 0

/-- Addressing8::value (cpu.rs lines 290-298).  The Rust function takes the
CPU by shared reference (&C) and so cannot mutate it; the embedding threads
the state explicitly, each arm returning it unchanged, so that read-only-ness
is a provable statement.  Indirect resolves by self-composition through
DirectMemory, exactly as in the source. -/
def Addressing8.value (a : Addressing8) (cpu : CPU8) : Nat × CPU8 :=
  match a with
  | .Immediate v => (v, cpu)
  | .ImmediateRegister reg => (cpu.reader_of8 reg, cpu)
  | .DirectMemory index => (cpu.memory.read index, cpu)
  | .Indirect reg => (Addressing8.DirectMemory (cpu.reader_of16 reg)).value cpu
termination_by a.rank
decreasing_by simp [Addressing8.rank]

/-- CPURunningState (cpu.rs lines 5-9). -/
inductive CPURunningState where
  | Running
  | Halted
  | Error
deriving DecidableEq

/-- The CPU trait surface that run() needs: one cycle() step.  The embedding
makes cycle a state transformer returning the next running state. -/
structure CPUIface (σ : Type) where
  cycle : σ → σ × CPURunningState

/-- CPU::run (cpu.rs lines 13-15): while let Running = self.cycle() {},
embedded with explicit fuel since the Rust loop need not terminate.  Returns
the final state, the terminal running state if one was reached within the
fuel, and the number of cycle() invocations made. -/
def CPUIface.runFuel {σ : Type} (m : CPUIface σ) :
    Nat → σ → σ × Option CPURunningState × Nat
  | 0, s => (s, none, 0)
  | n + 1, s =>
    match m.cycle s with
    | (t, CPURunningState.Running) =>
      let r := m.runFuel n t
      (r.1, r.2.1, r.2.2 + 1)
    | (t, st) => (t, some st, 1)

/-- A concrete machine used to exercise the run-loop theorem: counts up and
halts once the counter reaches 2. -/
def haltMachine : CPUIface Nat :=
  ⟨fun s => (s + 1, if 2 ≤ s then CPURunningState.Halted else CPURunningState.Running)⟩

/-- A concrete machine whose first cycle faults. -/
def errorMachine : CPUIface Nat :=
  ⟨fun s => (s + 1, CPURunningState.Error)⟩

/-- Modelled from the spec: the CPUStackPointer trait (push/pop and the stack
pointer) exists only as commented-out code in cpu.rs, so the stack machine is
taken from the spec's words: push(data) decrements SP (wrapping) and stores
data at the new SP; pop() reads the data at SP, then increments SP
(wrapping).  The memory is the flat 16-bit address space. -/
structure StackMachine where
  sp : Nat
  mem : Nat → Nat

/-- Modelled from the spec: push(data): decrement SP (wrapping), store data at
new SP. -/
def StackMachine.push (s : StackMachine) (data : Nat) : StackMachine :=
  let sp2 := (s.sp + 65536 - 1) % 65536
  { sp := sp2, mem := fun a => if a = sp2 then data else s.mem a }

/-- Modelled from the spec: pop() -> data: read data at SP, then increment SP
(wrapping). -/
def StackMachine.pop (s : StackMachine) : Nat × StackMachine :=
  (s.mem s.sp, { s with sp := (s.sp + 1) % 65536 })

/-- Push a whole sequence, first element first. -/
def StackMachine.pushAll (s : StackMachine) (ds : List Nat) : StackMachine :=
  ds.foldl StackMachine.push s

/-- Pop n times, returning the popped values in order. -/
def StackMachine.popN : StackMachine → Nat → List Nat × StackMachine
  | s, 0 => ([], s)
  | s, n + 1 =>
    let r := s.pop
    let rest := r.2.popN n
    (r.1 :: rest.1, rest.2)

/-- Modelled from the spec: the CPUProgramCounter trait (program_fetch and the
program counter) exists only as commented-out code in cpu.rs, so the fetch
machine is taken from the spec's words: program_fetch() reads memory at PC,
then increments PC (wrapping); jump(address) loads PC unconditionally. -/
structure FetchMachine where
  pc : Nat
  mem : Nat → Nat

/-- Modelled from the spec: program_fetch(): read memory at PC, then increment
PC (wrapping); returns the fetched data. -/
def FetchMachine.program_fetch (s : FetchMachine) : Nat × FetchMachine :=
  (s.mem s.pc, { s with pc := (s.pc + 1) % 65536 })

/-- Modelled from the spec: jump(address): unconditionally load PC. -/
def FetchMachine.jump (s : FetchMachine) (address : Nat) : FetchMachine :=
  { s with pc := address }

/-- Fetch n times in sequence, returning the fetched data in order. -/
def FetchMachine.fetchN : FetchMachine → Nat → List Nat × FetchMachine
  | s, 0 => ([], s)
  | s, n + 1 =>
    let r := s.program_fetch
    let rest := r.2.fetchN n
    (r.1 :: rest.1, rest.2)

/-! Helper lemmas. -/

/-- Generic mask identity: masking with the low n bits is reduction mod 2^n. -/
theorem and_two_pow_sub_one_eq_mod (x n : Nat) : x &&& (2 ^ n - 1) = x % 2 ^ n := by
  apply Nat.eq_of_testBit_eq
  intro i
  simp [Nat.testBit_and, Nat.testBit_two_pow_sub_one, Nat.testBit_mod_two_pow, Bool.and_comm]

/-- Shift-right distributes over bitwise or. -/
theorem shiftRight_or (a b n : Nat) : (a ||| b) >>> n = (a >>> n) ||| (b >>> n) := by
  apply Nat.eq_of_testBit_eq
  intro i
  simp [Nat.testBit_shiftRight, Nat.testBit_or]

/-- Shift-right distributes over bitwise and. -/
theorem shiftRight_and (a b n : Nat) : (a &&& b) >>> n = (a >>> n) &&& (b >>> n) := by
  apply Nat.eq_of_testBit_eq
  intro i
  simp [Nat.testBit_shiftRight, Nat.testBit_and]

/-- Bit i of the 16-bit all-ones word. -/
theorem testBit_65535 (i : Nat) : (65535 : Nat).testBit i = decide (i < 16) := by
  rw [show (65535 : Nat) = 2 ^ 16 - 1 by norm_num]
  exact Nat.testBit_two_pow_sub_one 16 i

/-- Bit i of the 8-bit all-ones word. -/
theorem testBit_255 (i : Nat) : (255 : Nat).testBit i = decide (i < 8) := by
  rw [show (255 : Nat) = 2 ^ 8 - 1 by norm_num]
  exact Nat.testBit_two_pow_sub_one 8 i

/-! Claim theorems. -/

/-- C3: MaskedRegisterLoader::load with mask M over a plain 16-bit register r
sets the underlying register to (n & M) | (r & !M); every bit outside M keeps
its prior value. -/
theorem maskedRegisterLoader_load_spec (r M n : Nat) (hr : r < 65536) :
    ((maskedRegisterLoader 65535 M register16Loader).load ⟨r⟩ n).bits
      = (n &&& M) ||| (r &&& (65535 ^^^ M)) ∧
    ∀ i, M.testBit i = false →
      ((maskedRegisterLoader 65535 M register16Loader).load ⟨r⟩ n).bits.testBit i
        = (Register16.mk r).bits.testBit i := by
  constructor
  · rfl
  · intro i hi
    show ((n &&& M) ||| (r &&& (65535 ^^^ M))).testBit i = r.testBit i
    rw [Nat.testBit_or, Nat.testBit_and, Nat.testBit_and, Nat.testBit_xor,
      testBit_65535, hi]
    rcases Nat.lt_or_ge i 16 with h16 | h16
    · simp [h16]
    · have hrb : r.testBit i = false := by
        apply Nat.testBit_lt_two_pow
        calc r < 65536 := hr
          _ = 2 ^ 16 := by norm_num
          _ ≤ 2 ^ i := Nat.pow_le_pow_right (by norm_num) h16
      have h16f : ¬ i < 16 := by omega
      simp [h16f, hrb]

/-- Witness for C3 at r = 0x1234, M = 0xf0f0, n = 0xabcd. -/
theorem maskedRegisterLoader_load_spec_witness :
    ((maskedRegisterLoader 65535 0xf0f0 register16Loader).load ⟨0x1234⟩ 0xabcd).bits
      = (0xabcd &&& 0xf0f0) ||| (0x1234 &&& (65535 ^^^ 0xf0f0)) ∧
    ∀ i, (0xf0f0 : Nat).testBit i = false →
      ((maskedRegisterLoader 65535 0xf0f0 register16Loader).load ⟨0x1234⟩ 0xabcd).bits.testBit i
        = (Register16.mk 0x1234).bits.testBit i :=
  maskedRegisterLoader_load_spec 0x1234 0xf0f0 0xabcd (by norm_num)

/-- C10: reading through a MaskedRegisterLoader with mask M returns the
underlying register value ANDed with M (register.rs lines 45-51), so bits
outside the mask read as zero; loading 0x1234 through mask 0xf0f0 onto a
zeroed register then reading gives 0x1030 (the bitwise_loader test). -/
theorem maskedRegisterLoader_read_spec (r M : Nat) :
    (maskedRegisterLoader 65535 M register16Loader).read ⟨r⟩ = r &&& M ∧
    (∀ i, M.testBit i = false →
      ((maskedRegisterLoader 65535 M register16Loader).read ⟨r⟩).testBit i = false) ∧
    (maskedRegisterLoader 65535 0xf0f0 register16Loader).read
      ((maskedRegisterLoader 65535 0xf0f0 register16Loader).load ⟨0⟩ 0x1234) = 0x1030 := by
  refine ⟨rfl, ?_, by decide⟩
  intro i hi
  show (r &&& M).testBit i = false
  simp [Nat.testBit_and, hi]

/-- Witness for C10 at r = 0x1234, M = 0xf0f0. -/
theorem maskedRegisterLoader_read_spec_witness :
    (maskedRegisterLoader 65535 0xf0f0 register16Loader).read ⟨0x1234⟩ = 0x1234 &&& 0xf0f0 ∧
    (∀ i, (0xf0f0 : Nat).testBit i = false →
      ((maskedRegisterLoader 65535 0xf0f0 register16Loader).read ⟨0x1234⟩).testBit i = false) ∧
    (maskedRegisterLoader 65535 0xf0f0 register16Loader).read
      ((maskedRegisterLoader 65535 0xf0f0 register16Loader).load ⟨0⟩ 0x1234) = 0x1030 :=
  maskedRegisterLoader_read_spec 0x1234 0xf0f0

/-- C2: the 16-in-8 view: loading x through the low half of a cell holding v
gives (v & 0xff00) | x (high byte v >> 8 unchanged), loading through the high
half gives (v & 0x00ff) | (x << 8) (low byte unchanged), and reading the
low / high view returns v & 0xff / v >> 8. -/
theorem register16In8_view_spec (v x : Nat) (hv : v < 65536) (hx : x < 256) :
    ((register16In8Loader true).load ⟨v⟩ x).bits = (v &&& 0xff00) ||| x ∧
    ((register16In8Loader false).load ⟨v⟩ x).bits = (v &&& 0x00ff) ||| (x <<< 8) ∧
    register16In8Reader true ⟨v⟩ = v &&& 0xff ∧
    register16In8Reader false ⟨v⟩ = v >>> 8 ∧
    register16In8Reader false ((register16In8Loader true).load ⟨v⟩ x) = v >>> 8 ∧
    register16In8Reader true ((register16In8Loader false).load ⟨v⟩ x) = v &&& 0xff := by
  have hand255 : ∀ y : Nat, y &&& 255 = y % 256 := by
    intro y
    have h := and_two_pow_sub_one_eq_mod y 8
    norm_num at h
    exact h
  have hhi : v >>> 8 < 256 := by
    rw [Nat.shiftRight_eq_div_pow]
    exact Nat.div_lt_of_lt_mul (by norm_num; omega)
  have hnotlow : notU16 0x00ff = 0xff00 := by decide
  have hnothigh : notU16 0xff00 = 0x00ff := by decide
  refine ⟨?_, ?_, ?_, ?_, ?_, ?_⟩
  · simp [register16In8Loader, hnotlow]
  · simp [register16In8Loader, hnothigh]
  · show (v &&& 255) % 256 = v &&& 255
    exact Nat.mod_eq_of_lt (lt_of_le_of_lt Nat.and_le_right (by norm_num))
  · show (v >>> 8) % 256 = v >>> 8
    exact Nat.mod_eq_of_lt hhi
  · show ((v &&& notU16 0x00ff ||| x) >>> 8) % 256 = v >>> 8
    rw [hnotlow, shiftRight_or, shiftRight_and]
    have hx8 : x >>> 8 = 0 := by
      rw [Nat.shiftRight_eq_div_pow]
      exact Nat.div_eq_of_lt (by omega)
    have hc : (0xff00 : Nat) >>> 8 = 255 := by decide
    rw [hx8, hc, Nat.or_zero, hand255]
    generalize hw : v >>> 8 = w at hhi ⊢
    omega
  · show ((v &&& 0x00ff ||| x <<< 8) &&& 255) % 256 = v &&& 255
    have hstep : (v &&& 0x00ff ||| x <<< 8) &&& 255 = v &&& 255 := by
      apply Nat.eq_of_testBit_eq
      intro i
      rw [Nat.testBit_and, Nat.testBit_or, Nat.testBit_and, testBit_255,
        Nat.testBit_shiftLeft]
      rcases Nat.lt_or_ge i 8 with h8 | h8
      · have h8f : ¬ 8 ≤ i := by omega
        simp [h8, h8f]
      · have h8f : ¬ i < 8 := by omega
        simp [h8f]
    rw [hstep, hand255]
    omega

/-- Witness for C2 at v = 0x1234, x = 0x56. -/
theorem register16In8_view_spec_witness :
    ((register16In8Loader true).load ⟨0x1234⟩ 0x56).bits = (0x1234 &&& 0xff00) ||| 0x56 ∧
    ((register16In8Loader false).load ⟨0x1234⟩ 0x56).bits = (0x1234 &&& 0x00ff) ||| (0x56 <<< 8) ∧
    register16In8Reader true ⟨0x1234⟩ = 0x1234 &&& 0xff ∧
    register16In8Reader false ⟨0x1234⟩ = 0x1234 >>> 8 ∧
    register16In8Reader false ((register16In8Loader true).load ⟨0x1234⟩ 0x56) = 0x1234 >>> 8 ∧
    register16In8Reader true ((register16In8Loader false).load ⟨0x1234⟩ 0x56) = 0x1234 &&& 0xff :=
  register16In8_view_spec 0x1234 0x56 (by norm_num) (by norm_num)

/-- C9: read and store are total over the full u16 address range: for every
address below 65536 the index is inside the 65536-byte array, so the
out-of-bounds branch is unreachable, read agrees with its fallible form, and
store keeps the array at its full size. -/
theorem memory8Bit64KB_total (m : Memory8Bit64KB) (d a : Nat)
    (hm : m.bytes.size = 65536) (ha : a < 65536) :
    (m.read? a).isSome = true ∧
    m.read? a = some (m.read a) ∧
    (m.store? a d).isSome = true ∧
    (m.store a d).bytes.size = 65536 := by
  have hin : a < m.bytes.size := by omega
  refine ⟨?_, ?_, ?_, ?_⟩
  · simp [Memory8Bit64KB.read?, Array.getElem?_eq_getElem hin]
  · simp [Memory8Bit64KB.read?, Memory8Bit64KB.read, Array.getElem?_eq_getElem hin]
  · simp [Memory8Bit64KB.store?, hin]
  · simp [Memory8Bit64KB.store, Array.size_setD, hm]

/-- Witness for C9 on an all-zero 65536-byte memory at address 0x1234. -/
theorem memory8Bit64KB_total_witness :
    ((Memory8Bit64KB.mk (Array.mkArray 65536 0)).read? 0x1234).isSome = true ∧
    (Memory8Bit64KB.mk (Array.mkArray 65536 0)).read? 0x1234
      = some ((Memory8Bit64KB.mk (Array.mkArray 65536 0)).read 0x1234) ∧
    ((Memory8Bit64KB.mk (Array.mkArray 65536 0)).store? 0x1234 7).isSome = true ∧
    ((Memory8Bit64KB.mk (Array.mkArray 65536 0)).store 0x1234 7).bytes.size = 65536 :=
  memory8Bit64KB_total ⟨Array.mkArray 65536 0⟩ 7 0x1234 (by simp) (by norm_num)

/-- C1 (evaluation at the failing input): committing the flag value 0 through
flag_loader_mask_slice with the slice {Overflow} (the carry flag) onto a CPU
whose flag register has the Signed bit set (af = 0x0002) clears the Signed
bit: the default method ignores its flag_masks argument and masks with
all_on(), so a bit outside the slice does not retain its prior value. -/
theorem flag_loader_mask_slice_ignores_slice :
    ((CPU8.flag_loader_mask_slice [FlagSetBits.from_slice [AdderFlag.Overflow]]).load
        ⟨⟨2⟩, ⟨0⟩, ⟨0⟩, ⟨0⟩, ⟨0⟩, ⟨#[]⟩⟩ 0).af.bits.testBit 1 = false ∧
    (Register16.mk 2).bits.testBit 1 = true ∧
    (FlagSetBits.from_slice [AdderFlag.Overflow]).bits.testBit 1 = false := by
  decide

/-- C4: the 8-bit ALU op is total with results wrapping mod 256, its flag word
is carry-out (bit value 1, the Overflow flag) plus sign-of-result (bit value
2, the Signed flag), and it matches the six fixture evaluations of the test. -/
theorem adder_op_spec (a b : Nat) (sub : Bool) (ha : a < 256) (hb : b < 256) :
    (Adder.op false a b).1 = (a + b) % 256 ∧
    (Adder.op true a b).1 = (a + 256 - b) % 256 ∧
    (Adder.op sub a b).1 < 256 ∧
    (Adder.op sub a b).2.bits
      = (if sub then (if a < b then 1 else 0) else (if 256 ≤ a + b then 1 else 0))
        + (if 128 ≤ (Adder.op sub a b).1 then 2 else 0) ∧
    Adder.op false 20 50 = (70, ⟨0⟩) ∧
    Adder.op false 120 50 = (170, ⟨2⟩) ∧
    Adder.op false 220 50 = (14, ⟨1⟩) ∧
    Adder.op true 20 50 = (226, ⟨3⟩) ∧
    Adder.op true 120 50 = (70, ⟨0⟩) ∧
    Adder.op true 220 50 = (170, ⟨2⟩) := by
  refine ⟨rfl, rfl, ?_, ?_, by decide, by decide, by decide, by decide, by decide, by decide⟩
  · cases sub <;> exact Nat.mod_lt _ (by norm_num)
  · cases sub
    · by_cases hov : 256 ≤ a + b <;> by_cases hsg : 128 ≤ (a + b) % 256 <;>
        simp [Adder.op, u8OverflowingAdd, FlagSetBits.change, AdderFlag.into,
          notU8, hov, hsg]
    · by_cases hov : a < b <;> by_cases hsg : 128 ≤ (a + 256 - b) % 256 <;>
        simp [Adder.op, u8OverflowingSub, FlagSetBits.change, AdderFlag.into,
          notU8, hov, hsg]

/-- Witness for C4 at a = 220, b = 50, sub = true. -/
theorem adder_op_spec_witness : (Adder.op true 220 50).1 < 256 :=
  (adder_op_spec 220 50 true (by norm_num) (by norm_num)).2.2.1

/-- C5: addressing resolution on a CPU state: Immediate(v) resolves to v,
ImmediateRegister(code) to the register value, DirectMemory(address) to the
memory data at that address, Indirect(code) to the memory data at the address
read from the register — by self-composition through DirectMemory — and
resolving any variant returns the machine state unchanged. -/
theorem addressing8_value_spec (cpu : CPU8) (v idx : Nat)
    (r8 : Register8Code) (r16 : Register16Code) :
    (Addressing8.Immediate v).value cpu = (v, cpu) ∧
    (Addressing8.ImmediateRegister r8).value cpu = (cpu.reader_of8 r8, cpu) ∧
    (Addressing8.DirectMemory idx).value cpu = (cpu.memory.read idx, cpu) ∧
    (Addressing8.Indirect r16).value cpu
      = (Addressing8.DirectMemory (cpu.reader_of16 r16)).value cpu ∧
    (Addressing8.Indirect r16).value cpu
      = (cpu.memory.read (cpu.reader_of16 r16), cpu) ∧
    ∀ a : Addressing8, (a.value cpu).2 = cpu := by
  refine ⟨by simp [Addressing8.value], by simp [Addressing8.value],
    by simp [Addressing8.value], by simp [Addressing8.value],
    by simp [Addressing8.value], ?_⟩
  intro a
  cases a <;> simp [Addressing8.value]

/-- C6: run() cycles exactly while cycle() returns Running, and a cycle
returning Halted or Error ends the run with that single cycle call (call
count 1, so cycle is never invoked again); a terminal result is never
Running. -/
theorem cpu_run_cycle_spec {σ : Type} (m : CPUIface σ) (n : Nat) (s t : σ) :
    (m.cycle s = (t, CPURunningState.Running) →
      m.runFuel (n + 1) s
        = ((m.runFuel n t).1, (m.runFuel n t).2.1, (m.runFuel n t).2.2 + 1)) ∧
    (m.cycle s = (t, CPURunningState.Halted) →
      m.runFuel (n + 1) s = (t, some CPURunningState.Halted, 1)) ∧
    (m.cycle s = (t, CPURunningState.Error) →
      m.runFuel (n + 1) s = (t, some CPURunningState.Error, 1)) ∧
    (∀ u res k, m.runFuel n s = (u, some res, k) →
      res ≠ CPURunningState.Running ∧ 1 ≤ k ∧ k ≤ n) := by
  refine ⟨?_, ?_, ?_, ?_⟩
  · intro h
    simp [CPUIface.runFuel, h]
  · intro h
    simp [CPUIface.runFuel, h]
  · intro h
    simp [CPUIface.runFuel, h]
  · induction n generalizing s with
    | zero =>
      intro u res k h
      simp [CPUIface.runFuel] at h
    | succ n ih =>
      intro u res k h
      rw [CPUIface.runFuel] at h
      rcases hc : m.cycle s with ⟨c, st⟩
      rw [hc] at h
      cases st with
      | Running =>
        simp only [Prod.mk.injEq] at h
        rcases hr : m.runFuel n c with ⟨u2, o2, k2⟩
        rw [hr] at h
        dsimp only at h
        obtain ⟨-, h2, h3⟩ := h
        obtain ⟨hres, hk1, hk2⟩ := ih c u2 res k2 (by rw [hr, h2])
        exact ⟨hres, by omega, by omega⟩
      | Halted =>
        simp only [Prod.mk.injEq, Option.some.injEq] at h
        obtain ⟨-, h2, h3⟩ := h
        subst h2
        exact ⟨by simp, by omega, by omega⟩
      | Error =>
        simp only [Prod.mk.injEq, Option.some.injEq] at h
        obtain ⟨-, h2, h3⟩ := h
        subst h2
        exact ⟨by simp, by omega, by omega⟩

/-- Witness for C6 on concrete machines: a Running cycle recurses with the
call count incremented, Halted and Error cycles return at once with exactly
one cycle call, and a reached terminal result is not Running. -/
theorem cpu_run_cycle_spec_witness :
    haltMachine.runFuel 1 2 = (3, some CPURunningState.Halted, 1) ∧
    errorMachine.runFuel 1 0 = (1, some CPURunningState.Error, 1) ∧
    haltMachine.runFuel 2 1
      = ((haltMachine.runFuel 1 2).1, (haltMachine.runFuel 1 2).2.1,
          (haltMachine.runFuel 1 2).2.2 + 1) ∧
    (CPURunningState.Halted ≠ CPURunningState.Running ∧ 1 ≤ 1 ∧ 1 ≤ 1) :=
  ⟨(cpu_run_cycle_spec haltMachine 0 2 3).2.1 rfl,
   (cpu_run_cycle_spec errorMachine 0 0 1).2.2.1 rfl,
   (cpu_run_cycle_spec haltMachine 1 1 2).1 rfl,
   (cpu_run_cycle_spec haltMachine 1 2 3).2.2.2 3 CPURunningState.Halted 1 (by decide)⟩

/-- SP after pushing a sequence: each push subtracts one, wrapping. -/
theorem sp_pushAll (ds : List Nat) :
    ∀ s : StackMachine, s.sp < 65536 →
      (s.pushAll ds).sp = (s.sp + 65535 * ds.length) % 65536 := by
  induction ds with
  | nil =>
    intro s hsp
    simp [StackMachine.pushAll]
    omega
  | cons d ds ih =>
    intro s hsp
    have h1 : s.pushAll (d :: ds) = (s.push d).pushAll ds := by
      simp [StackMachine.pushAll]
    have hsp2 : (s.push d).sp = (s.sp + 65536 - 1) % 65536 := rfl
    have hlt : (s.push d).sp < 65536 := by rw [hsp2]; omega
    rw [h1, ih (s.push d) hlt, hsp2, List.length_cons]
    omega

/-- SP after popping n times: each pop adds one, wrapping. -/
theorem sp_popN (n : Nat) :
    ∀ s : StackMachine, s.sp < 65536 →
      ((s.popN n).2).sp = (s.sp + n) % 65536 := by
  induction n with
  | zero =>
    intro s hsp
    simp [StackMachine.popN]
    omega
  | succ n ih =>
    intro s hsp
    have h1 : (s.popN (n + 1)).2 = ((s.pop.2).popN n).2 := rfl
    have hsp2 : s.pop.2.sp = (s.sp + 1) % 65536 := rfl
    have hlt : s.pop.2.sp < 65536 := by rw [hsp2]; omega
    rw [h1, ih s.pop.2 hlt, hsp2]
    omega

/-- C7: push decrements SP (wrapping) and stores at the new SP, pop reads at
SP and increments (wrapping), so pop is the exact inverse of push: popping
right after a push returns the pushed value with SP restored; after pushing
any sequence and popping the same number of times SP equals its original
value; and the fixture sequence [3,1,4,1,5] pops as [5,1,4,1,3] with SP
restored. -/
theorem stack_push_pop_spec (s : StackMachine) (d : Nat) (ds : List Nat)
    (hsp : s.sp < 65536) :
    ((s.push d).pop).1 = d ∧
    ((s.push d).pop).2.sp = s.sp ∧
    ((s.pushAll ds).popN ds.length).2.sp = s.sp ∧
    (((StackMachine.mk 0 fun _ => 0).pushAll [3, 1, 4, 1, 5]).popN 5).1
      = [5, 1, 4, 1, 3] ∧
    (((StackMachine.mk 0 fun _ => 0).pushAll [3, 1, 4, 1, 5]).popN 5).2.sp = 0 := by
  refine ⟨by simp [StackMachine.push, StackMachine.pop], ?_, ?_, by decide, by decide⟩
  · show ((s.sp + 65536 - 1) % 65536 + 1) % 65536 = s.sp
    omega
  · have h1 : (s.pushAll ds).sp = (s.sp + 65535 * ds.length) % 65536 :=
      sp_pushAll ds s hsp
    have hlt : (s.pushAll ds).sp < 65536 := by rw [h1]; omega
    rw [sp_popN ds.length (s.pushAll ds) hlt, h1]
    omega

/-- Witness for C7 at SP = 0, a zeroed memory, d = 9, ds = [1, 2]. -/
theorem stack_push_pop_spec_witness :
    (((StackMachine.mk 0 fun _ => 0).push 9).pop).1 = 9 :=
  (stack_push_pop_spec (StackMachine.mk 0 fun _ => 0) 9 [1, 2] (by norm_num)).1

/-- C8: program_fetch returns the memory data at PC and then increments PC by
exactly 1, wrapping from 0xffff to 0: four fetches from PC = 0 over memory
with memory[i] = i return [0,1,2,3], and after jump(31) the next three
fetches return [31,32,33]. -/
theorem program_fetch_spec (s : FetchMachine) (mem0 : Nat → Nat) :
    (s.program_fetch).1 = s.mem s.pc ∧
    (s.program_fetch).2.pc = (s.pc + 1) % 65536 ∧
    ((FetchMachine.mk 65535 mem0).program_fetch).2.pc = 0 ∧
    ((FetchMachine.mk 0 (fun i => i % 256)).fetchN 4).1 = [0, 1, 2, 3] ∧
    ((((FetchMachine.mk 0 (fun i => i % 256)).fetchN 4).2.jump 31).fetchN 3).1
      = [31, 32, 33] :=
  ⟨rfl, rfl, by show (65535 + 1) % 65536 = 0; norm_num, by decide, by decide⟩

end N88
